import Mathlib

set_option maxRecDepth 8000

/-!
Verification of the Unicode transcoding value type `UTF8String`
(src/sgp/UTF8String.h).

The repository ships only the header, which declares the constructors
(from UTF-8, UTF-16 and UTF-32 null-terminated sequences), the export
accessors (`getUTF8`, `getUTF16`, `getUTF32`, `getWCHAR`,
`getNumCharacters`, `getNumBytes`) and the stored canonical UTF-8 state
(`m_encoded`, `m_wcharBuffer`).  The decode/encode routines themselves
live in the missing implementation file, so they are modelled here from
the specification's §4.1 (decode paths), §4.2 (encode paths) and §4.3
(the value wrapper).

Code units and scalar values are modelled as `Nat`; a unit sequence is a
`List Nat` holding the units that precede the zero terminator (the spec
says every source sequence is terminated by a zero unit and every encoder
output is null-terminated, so a zero unit appearing inside a list is
treated as a terminator by the decoders).  Decoders return
`Option (List Nat)`: `none` is the malformed-input error.
-/

/-- A Unicode scalar value: in `[0, 0x10FFFF]` and not a surrogate. -/
def validScalar (v : Nat) : Prop :=
  v ≤ 0x10FFFF ∧ ¬(0xD800 ≤ v ∧ v ≤ 0xDFFF)

instance (v : Nat) : Decidable (validScalar v) := by
  unfold validScalar; infer_instance

/-- A UTF-8 continuation byte: top two bits are `10`. -/
def contByte (c : Nat) : Prop := 0x80 ≤ c ∧ c < 0xC0

instance (c : Nat) : Decidable (contByte c) := by
  unfold contByte; infer_instance

/-- Modelled from the spec (§4.1, missing implementation file of
`UTF8String`): decode UTF-8 bytes to scalar values.  Sequence length is
determined from the lead byte's high bits; continuation bytes must have
top bits `10`; overlong encodings, surrogates and values above
`0x10FFFF` are rejected; a zero byte terminates the input. -/
def decodeUTF8 : List Nat → Option (List Nat)
  | [] => some []
  | b :: t =>
    if b = 0 then some []
    else if b < 0x80 then (decodeUTF8 t).map (fun s => b :: s)
    else if b < 0xC0 then none
    else
      match t with
      | [] => none
      | c1 :: t1 =>
        if b < 0xE0 then
          if contByte c1 then
            if (b % 0x20) * 0x40 + c1 % 0x40 < 0x80 then none
            else (decodeUTF8 t1).map (fun s => ((b % 0x20) * 0x40 + c1 % 0x40) :: s)
          else none
        else
          match t1 with
          | [] => none
          | c2 :: t2 =>
            if b < 0xF0 then
              if contByte c1 ∧ contByte c2 then
                if (b % 0x10) * 0x1000 + (c1 % 0x40) * 0x40 + c2 % 0x40 < 0x800 then none
                else if 0xD800 ≤ (b % 0x10) * 0x1000 + (c1 % 0x40) * 0x40 + c2 % 0x40 ∧
                        (b % 0x10) * 0x1000 + (c1 % 0x40) * 0x40 + c2 % 0x40 ≤ 0xDFFF then
                  none
                else (decodeUTF8 t2).map
                  (fun s => ((b % 0x10) * 0x1000 + (c1 % 0x40) * 0x40 + c2 % 0x40) :: s)
              else none
            else
              match t2 with
              | [] => none
              | c3 :: t3 =>
                if b < 0xF8 then
                  if contByte c1 ∧ contByte c2 ∧ contByte c3 then
                    if (b % 8) * 0x40000 + (c1 % 0x40) * 0x1000 + (c2 % 0x40) * 0x40 +
                         c3 % 0x40 < 0x10000 then none
                    else if 0x10FFFF <
                        (b % 8) * 0x40000 + (c1 % 0x40) * 0x1000 + (c2 % 0x40) * 0x40 +
                          c3 % 0x40 then none
                    else (decodeUTF8 t3).map
                      (fun s =>
                        ((b % 8) * 0x40000 + (c1 % 0x40) * 0x1000 + (c2 % 0x40) * 0x40 +
                          c3 % 0x40) :: s)
                  else none
                else none

/-- Modelled from the spec (§4.1, missing implementation file of
`UTF8String`): decode UTF-16 units to scalar values.  A high surrogate
must be immediately followed by a low surrogate (combined by the standard
pairing formula); lone surrogates are rejected; a zero unit terminates
the input. -/
def decodeUTF16 : List Nat → Option (List Nat)
  | [] => some []
  | u :: t =>
    if u = 0 then some []
    else if u < 0xD800 then (decodeUTF16 t).map (fun s => u :: s)
    else if u < 0xDC00 then
      match t with
      | u2 :: t1 =>
        if 0xDC00 ≤ u2 ∧ u2 < 0xE000 then
          (decodeUTF16 t1).map
            (fun s => (0x10000 + (u - 0xD800) * 0x400 + (u2 - 0xDC00)) :: s)
        else none
      | [] => none
    else if u < 0xE000 then none
    else (decodeUTF16 t).map (fun s => u :: s)

/-- Modelled from the spec (§4.1, missing implementation file of
`UTF8String`): decode UTF-32 units to scalar values.  Each unit maps
directly to its scalar value; surrogates and values above `0x10FFFF`
are rejected; a zero unit terminates the input. -/
def decodeUTF32 : List Nat → Option (List Nat)
  | [] => some []
  | u :: t =>
    if u = 0 then some []
    else if validScalar u then (decodeUTF32 t).map (fun s => u :: s)
    else none

/-- Modelled from the spec (§4.2, missing implementation file of
`UTF8String`): UTF-8 encoding of one scalar value, 1 to 4 bytes using
the standard bit packing. -/
def encodeChar8 (v : Nat) : List Nat :=
  if v < 0x80 then [v]
  else if v < 0x800 then [0xC0 + v / 0x40, 0x80 + v % 0x40]
  else if v < 0x10000 then
    [0xE0 + v / 0x1000, 0x80 + (v / 0x40) % 0x40, 0x80 + v % 0x40]
  else
    [0xF0 + v / 0x40000, 0x80 + (v / 0x1000) % 0x40, 0x80 + (v / 0x40) % 0x40,
     0x80 + v % 0x40]

/-- Modelled from the spec (§4.2): encode a scalar sequence to UTF-8. -/
def encodeUTF8 (s : List Nat) : List Nat := s.flatMap encodeChar8

/-- Modelled from the spec (§4.2, missing implementation file of
`UTF8String`): UTF-16 encoding of one scalar value, one unit below
`0x10000`, otherwise a surrogate pair by the inverse pairing formula. -/
def encodeChar16 (v : Nat) : List Nat :=
  if v < 0x10000 then [v]
  else [0xD800 + (v - 0x10000) / 0x400, 0xDC00 + (v - 0x10000) % 0x400]

/-- Modelled from the spec (§4.2): encode a scalar sequence to UTF-16. -/
def encodeUTF16 (s : List Nat) : List Nat := s.flatMap encodeChar16

/-- Modelled from the spec (§4.2): encode a scalar sequence to UTF-32,
each scalar emitting one unit unchanged. -/
def encodeUTF32 (s : List Nat) : List Nat := s

/-- Build-time width of the platform wide character (`wchar_t`):
16-bit or 32-bit units, fixed per target platform. -/
inductive WideWidth where
  | w16 : WideWidth
  | w32 : WideWidth

/-- Modelled from the spec (§4.2, missing implementation file of
`UTF8String`): wide-character encoding of one scalar value.  On a
16-bit-wide platform a scalar below `0x10000` is one unit and larger
scalars are a surrogate pair; on a 32-bit-wide platform each scalar is
one unit unchanged.  The width is a compile-time parameter, not a
runtime branch. -/
def encodeCharWide : WideWidth → Nat → List Nat
  | WideWidth.w16, v =>
    if v < 0x10000 then [v]
    else [0xD800 + (v - 0x10000) / 0x400, 0xDC00 + (v - 0x10000) % 0x400]
  | WideWidth.w32, v => [v]

/-- Modelled from the spec (§4.2): encode a scalar sequence to the
platform wide-character form. -/
def encodeWide (w : WideWidth) (s : List Nat) : List Nat :=
  s.flatMap (encodeCharWide w)

/-- The immutable string value type of `src/sgp/UTF8String.h`: the
canonical UTF-8 bytes `m_encoded` plus the wide-character cache
`m_wcharBuffer`. -/
structure UTF8String where
  m_encoded : List Nat
  m_wcharBuffer : List Nat
  deriving DecidableEq

/-- Modelled from the spec (§4.3, missing implementation file):
construct from UTF-8 input.  The input is validated by the §4.1 UTF-8
decode; the canonical storage is the minimal UTF-8 encoding of the
decoded scalars (identical to the validated input up to its
terminator).  `none` is the thrown `InvalidEncodingException`. -/
def UTF8String.fromUTF8 (bytes : List Nat) : Option UTF8String :=
  (decodeUTF8 bytes).map (fun s => ⟨encodeUTF8 s, []⟩)

/-- Modelled from the spec (§4.3, missing implementation file):
construct from UTF-16 input: decode via §4.1, re-encode to UTF-8. -/
def UTF8String.fromUTF16 (units : List Nat) : Option UTF8String :=
  (decodeUTF16 units).map (fun s => ⟨encodeUTF8 s, []⟩)

/-- Modelled from the spec (§4.3, missing implementation file):
construct from UTF-32 input: decode via §4.1, re-encode to UTF-8. -/
def UTF8String.fromUTF32 (units : List Nat) : Option UTF8String :=
  (decodeUTF32 units).map (fun s => ⟨encodeUTF8 s, []⟩)

/-- `getUTF8`: the canonical stored bytes (terminator excluded). -/
def UTF8String.getUTF8 (x : UTF8String) : List Nat := x.m_encoded

/-- The scalar sequence of the canonical form (decode via §4.1; total
because accessors are only used on constructed objects, whose canonical
form always decodes). -/
def UTF8String.scalars (x : UTF8String) : List Nat :=
  (decodeUTF8 x.m_encoded).getD []

/-- `getUTF16`: decode the canonical UTF-8, encode to UTF-16 units. -/
def UTF8String.getUTF16 (x : UTF8String) : List Nat :=
  encodeUTF16 x.scalars

/-- `getUTF32`: decode the canonical UTF-8, encode to UTF-32 units. -/
def UTF8String.getUTF32 (x : UTF8String) : List Nat :=
  encodeUTF32 x.scalars

/-- `getWCHAR` (under `WCHAR_SUPPORT`): encode the scalars to the
platform wide form, store the result in the internal `m_wcharBuffer`,
and return it.  This is the only non-const method: it returns the new
object state alongside the produced units. -/
def UTF8String.getWCHAR (w : WideWidth) (x : UTF8String) :
    List Nat × UTF8String :=
  (encodeWide w x.scalars, { x with m_wcharBuffer := encodeWide w x.scalars })

/-- `getNumCharacters`: the number of scalar values. -/
def UTF8String.getNumCharacters (x : UTF8String) : Nat :=
  x.scalars.length

/-- `getNumBytes`: bytes of the canonical UTF-8 form, terminator
excluded. -/
def UTF8String.getNumBytes (x : UTF8String) : Nat :=
  x.m_encoded.length

/-- A sequence of scalar values that is representable in a
null-terminated string: every element is a nonzero valid scalar. -/
def goodScalars (S : List Nat) : Prop := ∀ v ∈ S, 0 < v ∧ validScalar v

instance (S : List Nat) : Decidable (goodScalars S) := by
  unfold goodScalars; infer_instance

/-- A `UTF8String` object that came out of one of the three
constructors (for the UTF-16 constructor the input units fit in 16
bits, as the `uint16_t` argument type guarantees). -/
def constructed (x : UTF8String) : Prop :=
  (∃ bs, UTF8String.fromUTF8 bs = some x) ∨
  (∃ us, (∀ u ∈ us, u < 0x10000) ∧ UTF8String.fromUTF16 us = some x) ∨
  (∃ ws, UTF8String.fromUTF32 ws = some x)

/-- The two-byte UTF-8 pattern for a value `v < 0x80`: an overlong
encoding (the value fits in one byte). -/
def overlong2 (v : Nat) : List Nat := [0xC0 + v / 0x40, 0x80 + v % 0x40]

/-- The three-byte UTF-8 pattern for a value `v < 0x800`: an overlong
encoding (the value fits in at most two bytes). -/
def overlong3 (v : Nat) : List Nat :=
  [0xE0 + v / 0x1000, 0x80 + (v / 0x40) % 0x40, 0x80 + v % 0x40]

/-- The four-byte UTF-8 pattern for a value `v < 0x10000`: an overlong
encoding (the value fits in at most three bytes). -/
def overlong4 (v : Nat) : List Nat :=
  [0xF0 + v / 0x40000, 0x80 + (v / 0x1000) % 0x40, 0x80 + (v / 0x40) % 0x40,
   0x80 + v % 0x40]

/-- One `getWCHAR` call after another: iterate the only mutating method
`n` times, threading the object state. -/
def applyWCHAR (w : WideWidth) : Nat → UTF8String → UTF8String
  | 0, x => x
  | n + 1, x => applyWCHAR w n (x.getWCHAR w).2

theorem decodeUTF8_encodeChar8 (v : Nat) (r : List Nat) (hv : 0 < v)
    (hs : validScalar v) :
    decodeUTF8 (encodeChar8 v ++ r) = (decodeUTF8 r).map (fun s => v :: s) := by
  obtain ⟨hle, hsur⟩ := hs
  by_cases h1 : v < 0x80
  · rw [encodeChar8, if_pos h1, List.cons_append, List.nil_append]
    rw [decodeUTF8.eq_def]
    simp only
    rw [if_neg (by omega), if_pos h1]
  · by_cases h2 : v < 0x800
    · rw [encodeChar8, if_neg h1, if_pos h2]
      simp only [List.cons_append, List.nil_append]
      rw [decodeUTF8.eq_def]
      simp only
      rw [if_neg (by omega), if_neg (by omega), if_neg (by omega), if_pos (by omega)]
      rw [if_pos (by unfold contByte; omega), if_neg (by omega)]
      have hv2 : (0xC0 + v / 0x40) % 0x20 * 0x40 + (0x80 + v % 0x40) % 0x40 = v := by
        omega
      rw [hv2]
    · by_cases h3 : v < 0x10000
      · rw [encodeChar8, if_neg h1, if_neg h2, if_pos h3]
        simp only [List.cons_append, List.nil_append]
        rw [decodeUTF8.eq_def]
        simp only
        rw [if_neg (by omega), if_neg (by omega), if_neg (by omega), if_neg (by omega),
          if_pos (by omega)]
        rw [if_pos (by unfold contByte; omega), if_neg (by omega), if_neg (by omega)]
        have hv3 : (0xE0 + v / 0x1000) % 0x10 * 0x1000 +
            (0x80 + v / 0x40 % 0x40) % 0x40 * 0x40 + (0x80 + v % 0x40) % 0x40 = v := by
          omega
        rw [hv3]
      · rw [encodeChar8, if_neg h1, if_neg h2, if_neg h3]
        simp only [List.cons_append, List.nil_append]
        rw [decodeUTF8.eq_def]
        simp only
        rw [if_neg (by omega), if_neg (by omega), if_neg (by omega), if_neg (by omega),
          if_neg (by omega), if_pos (by omega)]
        rw [if_pos (by unfold contByte; omega), if_neg (by omega), if_neg (by omega)]
        have hv4 : (0xF0 + v / 0x40000) % 8 * 0x40000 +
            (0x80 + v / 0x1000 % 0x40) % 0x40 * 0x1000 +
            (0x80 + v / 0x40 % 0x40) % 0x40 * 0x40 + (0x80 + v % 0x40) % 0x40 = v := by
          omega
        rw [hv4]

theorem decodeUTF16_encodeChar16 (v : Nat) (r : List Nat) (hv : 0 < v)
    (hs : validScalar v) :
    decodeUTF16 (encodeChar16 v ++ r) = (decodeUTF16 r).map (fun s => v :: s) := by
  obtain ⟨hle, hsur⟩ := hs
  by_cases h1 : v < 0x10000
  · rw [encodeChar16, if_pos h1, List.cons_append, List.nil_append]
    rw [decodeUTF16.eq_def]
    simp only
    by_cases h2 : v < 0xD800
    · rw [if_neg (by omega), if_pos h2]
    · rw [if_neg (by omega), if_neg h2, if_neg (by omega), if_neg (by omega)]
  · rw [encodeChar16, if_neg h1]
    simp only [List.cons_append, List.nil_append]
    rw [decodeUTF16.eq_def]
    simp only
    rw [if_neg (by omega), if_neg (by omega), if_pos (by omega), if_pos (by omega)]
    have hv2 : 0x10000 + (0xD800 + (v - 0x10000) / 0x400 - 0xD800) * 0x400 +
        (0xDC00 + (v - 0x10000) % 0x400 - 0xDC00) = v := by omega
    rw [hv2]

theorem decodeUTF32_cons (v : Nat) (r : List Nat) (hv : 0 < v)
    (hs : validScalar v) :
    decodeUTF32 (v :: r) = (decodeUTF32 r).map (fun s => v :: s) := by
  rw [decodeUTF32.eq_def]
  simp only
  rw [if_neg (by omega), if_pos hs]

theorem decodeUTF8_encodeUTF8_append (S r : List Nat) (h : goodScalars S) :
    decodeUTF8 (encodeUTF8 S ++ r) = (decodeUTF8 r).map (fun s => S ++ s) := by
  induction S with
  | nil => simp [encodeUTF8]
  | cons v S1 ih =>
    have hv := h v (List.mem_cons_self v S1)
    rw [encodeUTF8, List.flatMap_cons, List.append_assoc]
    rw [decodeUTF8_encodeChar8 v _ hv.1 hv.2]
    have hS1 : goodScalars S1 := fun u hu => h u (List.mem_cons_of_mem _ hu)
    rw [show S1.flatMap encodeChar8 = encodeUTF8 S1 from rfl, ih hS1, Option.map_map]
    rfl

theorem decodeUTF16_encodeUTF16_append (S r : List Nat) (h : goodScalars S) :
    decodeUTF16 (encodeUTF16 S ++ r) = (decodeUTF16 r).map (fun s => S ++ s) := by
  induction S with
  | nil => simp [encodeUTF16]
  | cons v S1 ih =>
    have hv := h v (List.mem_cons_self v S1)
    rw [encodeUTF16, List.flatMap_cons, List.append_assoc]
    rw [decodeUTF16_encodeChar16 v _ hv.1 hv.2]
    have hS1 : goodScalars S1 := fun u hu => h u (List.mem_cons_of_mem _ hu)
    rw [show S1.flatMap encodeChar16 = encodeUTF16 S1 from rfl, ih hS1, Option.map_map]
    rfl

theorem decodeUTF32_encodeUTF32_append (S r : List Nat) (h : goodScalars S) :
    decodeUTF32 (encodeUTF32 S ++ r) = (decodeUTF32 r).map (fun s => S ++ s) := by
  induction S with
  | nil => simp [encodeUTF32]
  | cons v S1 ih =>
    have hv := h v (List.mem_cons_self v S1)
    rw [encodeUTF32, List.cons_append]
    rw [decodeUTF32_cons v _ hv.1 hv.2]
    have hS1 : goodScalars S1 := fun u hu => h u (List.mem_cons_of_mem _ hu)
    rw [show (S1 : List Nat) = encodeUTF32 S1 from rfl, ih hS1, Option.map_map]
    rfl

theorem decodeUTF8_encodeUTF8 (S : List Nat) (h : goodScalars S) :
    decodeUTF8 (encodeUTF8 S) = some S := by
  have h2 := decodeUTF8_encodeUTF8_append S [] h
  rw [List.append_nil] at h2
  rw [h2, decodeUTF8.eq_1]
  simp

theorem decodeUTF16_encodeUTF16 (S : List Nat) (h : goodScalars S) :
    decodeUTF16 (encodeUTF16 S) = some S := by
  have h2 := decodeUTF16_encodeUTF16_append S [] h
  rw [List.append_nil] at h2
  rw [h2, decodeUTF16.eq_1]
  simp

theorem decodeUTF32_encodeUTF32 (S : List Nat) (h : goodScalars S) :
    decodeUTF32 (encodeUTF32 S) = some S := by
  have h2 := decodeUTF32_encodeUTF32_append S [] h
  rw [List.append_nil] at h2
  rw [h2, decodeUTF32.eq_1]
  simp

theorem decodeUTF8_valid : ∀ bs S, decodeUTF8 bs = some S → goodScalars S := by
  intro bs
  induction bs using decodeUTF8.induct
  all_goals intro S h v hv
  all_goals rw [decodeUTF8.eq_def] at h
  all_goals simp only [*, and_self, and_true, true_and, if_true, if_false, ite_true,
    ite_false, not_false_iff] at h
  all_goals first
    | (obtain ⟨S1, hS1, hS2⟩ := Option.map_eq_some'.mp h
       subst hS2
       rcases List.mem_cons.mp hv with rfl | hv2
       · exact ⟨by omega, by unfold validScalar; omega⟩
       · solve_by_elim)
    | (cases h <;> simp at hv)

theorem decodeUTF32_valid : ∀ us S, decodeUTF32 us = some S → goodScalars S := by
  intro us
  induction us using decodeUTF32.induct
  all_goals intro S h v hv
  all_goals rw [decodeUTF32.eq_def] at h
  all_goals simp only [*, and_self, and_true, true_and, if_true, if_false, ite_true,
    ite_false, not_false_iff] at h
  all_goals first
    | (obtain ⟨S1, hS1, hS2⟩ := Option.map_eq_some'.mp h
       subst hS2
       rcases List.mem_cons.mp hv with rfl | hv2
       · exact ⟨by simp_all [validScalar]; omega, by assumption⟩
       · solve_by_elim)
    | (cases h <;> simp at hv)

theorem decodeUTF16_valid : ∀ us, (∀ u ∈ us, u < 0x10000) →
    ∀ S, decodeUTF16 us = some S → goodScalars S := by
  intro us
  induction us using decodeUTF16.induct with
  | case1 =>
    intro hb S h v hv
    rw [decodeUTF16.eq_1] at h
    cases h
    simp at hv
  | case2 t =>
    intro hb S h v hv
    rw [decodeUTF16.eq_def] at h
    simp only [if_pos rfl] at h
    cases h
    simp at hv
  | case3 u t h0 h1 ih =>
    intro hb S h v hv
    rw [decodeUTF16.eq_def] at h
    simp only [if_neg h0, if_pos h1] at h
    obtain ⟨S1, hS1, hS2⟩ := Option.map_eq_some'.mp h
    subst hS2
    obtain heq | hv2 := List.mem_cons.mp hv
    · rw [heq]
      exact ⟨by omega, by unfold validScalar; omega⟩
    · exact ih (fun w hw => hb w (List.mem_cons_of_mem _ hw)) S1 hS1 v hv2
  | case4 u h0 h1 h2 u2 t1 h3 ih =>
    intro hb S h v hv
    rw [decodeUTF16.eq_def] at h
    simp only [if_neg h0, if_neg h1, if_pos h2, if_pos h3] at h
    obtain ⟨S1, hS1, hS2⟩ := Option.map_eq_some'.mp h
    subst hS2
    obtain heq | hv2 := List.mem_cons.mp hv
    · rw [heq]
      exact ⟨by omega, by unfold validScalar; omega⟩
    · exact ih (fun w hw =>
        hb w (List.mem_cons_of_mem _ (List.mem_cons_of_mem _ hw))) S1 hS1 v hv2
  | case5 u h0 h1 h2 u2 t1 h3 =>
    intro hb S h v hv
    rw [decodeUTF16.eq_def] at h
    simp only [if_neg h0, if_neg h1, if_pos h2, if_neg h3] at h
    cases h
  | case6 u h0 h1 h2 =>
    intro hb S h v hv
    rw [decodeUTF16.eq_def] at h
    simp only [if_neg h0, if_neg h1, if_pos h2] at h
    cases h
  | case7 u t h0 h1 h2 h3 =>
    intro hb S h v hv
    rw [decodeUTF16.eq_def] at h
    simp only [if_neg h0, if_neg h1, if_neg h2, if_pos h3] at h
    cases h
  | case8 u t h0 h1 h2 h3 ih =>
    intro hb S h v hv
    rw [decodeUTF16.eq_def] at h
    simp only [if_neg h0, if_neg h1, if_neg h2, if_neg h3] at h
    obtain ⟨S1, hS1, hS2⟩ := Option.map_eq_some'.mp h
    subst hS2
    obtain heq | hv2 := List.mem_cons.mp hv
    · have hu := hb u (List.mem_cons_self _ _)
      rw [heq]
      exact ⟨by omega, by unfold validScalar; omega⟩
    · exact ih (fun w hw => hb w (List.mem_cons_of_mem _ hw)) S1 hS1 v hv2

theorem constructed_spec (x : UTF8String) (h : constructed x) :
    ∃ S, goodScalars S ∧ x.m_encoded = encodeUTF8 S ∧
      decodeUTF8 x.m_encoded = some S ∧ x.scalars = S := by
  have key : ∀ S0, goodScalars S0 → x.m_encoded = encodeUTF8 S0 →
      ∃ S, goodScalars S ∧ x.m_encoded = encodeUTF8 S ∧
        decodeUTF8 x.m_encoded = some S ∧ x.scalars = S := by
    intro S0 hg he
    refine ⟨S0, hg, he, ?_, ?_⟩
    · rw [he]; exact decodeUTF8_encodeUTF8 S0 hg
    · rw [UTF8String.scalars, he, decodeUTF8_encodeUTF8 S0 hg]; rfl
  rcases h with ⟨bs, hc⟩ | ⟨us, hu, hc⟩ | ⟨ws, hc⟩
  · rw [UTF8String.fromUTF8] at hc
    obtain ⟨S0, hS0, hx⟩ := Option.map_eq_some'.mp hc
    subst hx
    exact key S0 (decodeUTF8_valid bs S0 hS0) rfl
  · rw [UTF8String.fromUTF16] at hc
    obtain ⟨S0, hS0, hx⟩ := Option.map_eq_some'.mp hc
    subst hx
    exact key S0 (decodeUTF16_valid us hu S0 hS0) rfl
  · rw [UTF8String.fromUTF32] at hc
    obtain ⟨S0, hS0, hx⟩ := Option.map_eq_some'.mp hc
    subst hx
    exact key S0 (decodeUTF32_valid ws S0 hS0) rfl

theorem encodeWide_w16 (s : List Nat) :
    encodeWide WideWidth.w16 s = encodeUTF16 s := rfl

theorem encodeWide_w32 (s : List Nat) :
    encodeWide WideWidth.w32 s = encodeUTF32 s := by
  rw [encodeWide, encodeUTF32]
  induction s with
  | nil => rfl
  | cons v t ih => rw [List.flatMap_cons, ih]; rfl

theorem applyWCHAR_m_encoded (w : WideWidth) (n : Nat) (x : UTF8String) :
    (applyWCHAR w n x).m_encoded = x.m_encoded := by
  induction n generalizing x with
  | zero => rfl
  | succ n ih => rw [applyWCHAR, ih]; rfl

/-- C1 fails as stated: the scalar value 0 is in `[0, 0x10FFFF]` and is
not a surrogate, yet the UTF-8 round trip does not recover it — the
encoder emits the single byte `0x00`, which the null-terminated decoder
treats as the end of input, so decoding yields the empty sequence. -/
theorem C1_roundtrip_counterexample :
    validScalar 0 ∧ decodeUTF8 (encodeUTF8 [0]) = some [] ∧
      ¬decodeUTF8 (encodeUTF8 [0]) = some [0] := by decide

/-- C1 (amended): for every sequence of nonzero valid scalar values
(each in `[1, 0x10FFFF]` and not in `[0xD800, 0xDFFF]`), decoding the
UTF-8 encoding yields exactly the original sequence, and likewise for
the UTF-16 and UTF-32 encode/decode pairs. -/
theorem C1_roundtrip (S : List Nat) (h : goodScalars S) :
    decodeUTF8 (encodeUTF8 S) = some S ∧
      decodeUTF16 (encodeUTF16 S) = some S ∧
      decodeUTF32 (encodeUTF32 S) = some S :=
  ⟨decodeUTF8_encodeUTF8 S h, decodeUTF16_encodeUTF16 S h,
   decodeUTF32_encodeUTF32 S h⟩

/-- C1 witness: the round trip at the concrete scalar sequence
A, é, GRINNING FACE. -/
theorem C1_roundtrip_witness :
    goodScalars [0x41, 0xE9, 0x1F600] ∧
      (decodeUTF8 (encodeUTF8 [0x41, 0xE9, 0x1F600]) =
          some [0x41, 0xE9, 0x1F600] ∧
        decodeUTF16 (encodeUTF16 [0x41, 0xE9, 0x1F600]) =
          some [0x41, 0xE9, 0x1F600] ∧
        decodeUTF32 (encodeUTF32 [0x41, 0xE9, 0x1F600]) =
          some [0x41, 0xE9, 0x1F600]) :=
  ⟨by decide, C1_roundtrip [0x41, 0xE9, 0x1F600] (by decide)⟩

/-- C2: every object produced by one of the three constructors stores a
canonical byte sequence that is the minimal UTF-8 encoding of a sequence
of valid nonzero scalar values and decodes back to exactly that
sequence; construction returns `Option`, so a failed construction
produces no object at all and no partially-decoded state is
observable. -/
theorem C2_invariant (x : UTF8String) (h : constructed x) :
    ∃ S, goodScalars S ∧ x.m_encoded = encodeUTF8 S ∧
      decodeUTF8 x.m_encoded = some S := by
  obtain ⟨S, hg, he, hd, _⟩ := constructed_spec x h
  exact ⟨S, hg, he, hd⟩

/-- C2 witness: the object built from the UTF-8 bytes of é. -/
theorem C2_invariant_witness :
    constructed ⟨[0xC3, 0xA9], []⟩ ∧
      ∃ S, goodScalars S ∧
        (⟨[0xC3, 0xA9], []⟩ : UTF8String).m_encoded = encodeUTF8 S ∧
        decodeUTF8 (⟨[0xC3, 0xA9], []⟩ : UTF8String).m_encoded = some S :=
  ⟨Or.inl ⟨[0xC3, 0xA9], by decide⟩,
   C2_invariant ⟨[0xC3, 0xA9], []⟩ (Or.inl ⟨[0xC3, 0xA9], by decide⟩)⟩

/-- C3: the byte sequence `0xC0 0x80` (overlong two-byte encoding of
NUL) is rejected by the UTF-8 decoder, and in general every overlong
encoding — a two-byte pattern of a value below `0x80`, a three-byte
pattern of a value below `0x800`, or a four-byte pattern of a value
below `0x10000` — is rejected wherever it starts. -/
theorem C3_overlong_rejected :
    decodeUTF8 [0xC0, 0x80] = none ∧
      (∀ v r, v < 0x80 → decodeUTF8 (overlong2 v ++ r) = none) ∧
      (∀ v r, v < 0x800 → decodeUTF8 (overlong3 v ++ r) = none) ∧
      (∀ v r, v < 0x10000 → decodeUTF8 (overlong4 v ++ r) = none) := by
  refine ⟨by decide, ?_, ?_, ?_⟩
  · intro v r hv
    rw [overlong2]
    simp only [List.cons_append, List.nil_append]
    rw [decodeUTF8.eq_def]
    simp only
    rw [if_neg (by omega), if_neg (by omega), if_neg (by omega), if_pos (by omega),
      if_pos (by unfold contByte; omega), if_pos (by omega)]
  · intro v r hv
    rw [overlong3]
    simp only [List.cons_append, List.nil_append]
    rw [decodeUTF8.eq_def]
    simp only
    rw [if_neg (by omega), if_neg (by omega), if_neg (by omega), if_neg (by omega),
      if_pos (by omega), if_pos (by unfold contByte; omega), if_pos (by omega)]
  · intro v r hv
    rw [overlong4]
    simp only [List.cons_append, List.nil_append]
    rw [decodeUTF8.eq_def]
    simp only
    rw [if_neg (by omega), if_neg (by omega), if_neg (by omega), if_neg (by omega),
      if_neg (by omega), if_pos (by omega), if_pos (by unfold contByte; omega),
      if_pos (by omega)]

/-- C3 witness: overlong rejection at the values 0x41, 0xE9, 0xE9. -/
theorem C3_overlong_rejected_witness :
    decodeUTF8 [0xC0, 0x80] = none ∧
      decodeUTF8 (overlong2 0x41 ++ []) = none ∧
      decodeUTF8 (overlong3 0xE9 ++ []) = none ∧
      decodeUTF8 (overlong4 0xE9 ++ []) = none :=
  ⟨C3_overlong_rejected.1,
   C3_overlong_rejected.2.1 0x41 [] (by decide),
   C3_overlong_rejected.2.2.1 0xE9 [] (by decide),
   C3_overlong_rejected.2.2.2 0xE9 [] (by decide)⟩

/-- C4: the UTF-16 input consisting solely of the unit `0xD800` (a lone
high surrogate) is rejected, and in general, after any prefix of whole
valid scalars, a high surrogate not immediately followed by a low
surrogate fails, and a low surrogate in scalar position (hence without
a preceding high surrogate) fails. -/
theorem C4_lone_surrogate_rejected :
    decodeUTF16 [0xD800] = none ∧
      (∀ S u r, goodScalars S → 0xD800 ≤ u → u < 0xDC00 →
        (∀ u2 t, r = u2 :: t → ¬(0xDC00 ≤ u2 ∧ u2 < 0xE000)) →
        decodeUTF16 (encodeUTF16 S ++ u :: r) = none) ∧
      (∀ S u r, goodScalars S → 0xDC00 ≤ u → u < 0xE000 →
        decodeUTF16 (encodeUTF16 S ++ u :: r) = none) := by
  refine ⟨by decide, ?_, ?_⟩
  · intro S u r hS hu1 hu2 hr
    rw [decodeUTF16_encodeUTF16_append S (u :: r) hS]
    have h1 : decodeUTF16 (u :: r) = none := by
      rw [decodeUTF16.eq_def]
      simp only
      rw [if_neg (by omega), if_neg (by omega), if_pos (by omega)]
      cases r with
      | nil => rfl
      | cons u2 t =>
        simp only
        rw [if_neg (hr u2 t rfl)]
    rw [h1]
    rfl
  · intro S u r hS hu1 hu2
    rw [decodeUTF16_encodeUTF16_append S (u :: r) hS]
    have h1 : decodeUTF16 (u :: r) = none := by
      rw [decodeUTF16.eq_def]
      simp only
      rw [if_neg (by omega), if_neg (by omega), if_neg (by omega), if_pos (by omega)]
    rw [h1]
    rfl

/-- C4 witness: a lone high surrogate after the prefix A, and a lone low
surrogate after the prefix A. -/
theorem C4_lone_surrogate_rejected_witness :
    decodeUTF16 [0xD800] = none ∧
      decodeUTF16 (encodeUTF16 [0x41] ++ 0xD800 :: []) = none ∧
      decodeUTF16 (encodeUTF16 [0x41] ++ 0xDC00 :: []) = none :=
  ⟨C4_lone_surrogate_rejected.1,
   C4_lone_surrogate_rejected.2.1 [0x41] 0xD800 [] (by decide) (by decide)
     (by decide) (fun u2 t h => absurd h (by simp)),
   C4_lone_surrogate_rejected.2.2 [0x41] 0xDC00 [] (by decide) (by decide)
     (by decide)⟩

/-- C5: the UTF-32 unit `0x110000` (above the maximum code point) is
rejected, and in general every nonzero unit that is not a valid scalar
value — a surrogate code point or a value above `0x10FFFF` — is
rejected wherever it appears after a prefix of valid scalars. -/
theorem C5_utf32_range_rejected :
    decodeUTF32 [0x110000] = none ∧
      (∀ S u r, goodScalars S → 0 < u → ¬validScalar u →
        decodeUTF32 (encodeUTF32 S ++ u :: r) = none) := by
  refine ⟨by decide, ?_⟩
  intro S u r hS hu hv
  rw [decodeUTF32_encodeUTF32_append S (u :: r) hS]
  have h1 : decodeUTF32 (u :: r) = none := by
    rw [decodeUTF32.eq_def]
    simp only
    rw [if_neg (by omega), if_neg hv]
  rw [h1]
  rfl

/-- C5 witness: the out-of-range unit 0x110000 and the surrogate unit
0xD800 after the prefix A. -/
theorem C5_utf32_range_rejected_witness :
    decodeUTF32 [0x110000] = none ∧
      decodeUTF32 (encodeUTF32 [0x41] ++ 0x110000 :: []) = none ∧
      decodeUTF32 (encodeUTF32 [0x41] ++ 0xD800 :: []) = none :=
  ⟨C5_utf32_range_rejected.1,
   C5_utf32_range_rejected.2 [0x41] 0x110000 [] (by decide) (by decide) (by decide),
   C5_utf32_range_rejected.2 [0x41] 0xD800 [] (by decide) (by decide) (by decide)⟩

/-- C6: constructing from the single UTF-32 scalar `0x1F600` and
exporting yields exactly the UTF-16 surrogate pair `0xD83D 0xDE00` and
exactly the UTF-8 bytes `0xF0 0x9F 0x98 0x80`. -/
theorem C6_supplementary_plane :
    (UTF8String.fromUTF32 [0x1F600]).map UTF8String.getUTF16 =
        some [0xD83D, 0xDE00] ∧
      (UTF8String.fromUTF32 [0x1F600]).map UTF8String.getUTF8 =
        some [0xF0, 0x9F, 0x98, 0x80] := by decide

/-- C7: constructing from the UTF-8 bytes `0xC3 0xA9` (é) reports one
character (scalar values, not bytes) and two bytes (canonical UTF-8
length, terminator excluded). -/
theorem C7_character_count :
    (UTF8String.fromUTF8 [0xC3, 0xA9]).map UTF8String.getNumCharacters =
        some 1 ∧
      (UTF8String.fromUTF8 [0xC3, 0xA9]).map UTF8String.getNumBytes =
        some 2 := by decide

/-- C8: the wide-character export produces exactly the UTF-16 unit
sequence when the build-time wide width is 16 bits and exactly the
UTF-32 unit sequence when it is 32 bits; the width is a compile-time
parameter of the model, not a runtime branch. -/
theorem C8_wide_matches_build_width (x : UTF8String) :
    (x.getWCHAR WideWidth.w16).1 = x.getUTF16 ∧
      (x.getWCHAR WideWidth.w32).1 = x.getUTF32 :=
  ⟨encodeWide_w16 x.scalars, encodeWide_w32 x.scalars⟩

/-- C9: on every constructed object the stored canonical form decodes
successfully, and every accessor's result is fully determined by that
successful decode — no accessor has a failure path. -/
theorem C9_accessors_infallible (x : UTF8String) (h : constructed x) :
    ∃ S, decodeUTF8 x.m_encoded = some S ∧
      x.getUTF8 = encodeUTF8 S ∧
      x.getUTF16 = encodeUTF16 S ∧
      x.getUTF32 = encodeUTF32 S ∧
      (∀ w, (x.getWCHAR w).1 = encodeWide w S) ∧
      x.getNumCharacters = S.length ∧
      x.getNumBytes = (encodeUTF8 S).length := by
  obtain ⟨S, hg, he, hd, hs⟩ := constructed_spec x h
  refine ⟨S, hd, he, ?_, ?_, ?_, ?_, ?_⟩
  · rw [UTF8String.getUTF16, hs]
  · rw [UTF8String.getUTF32, hs]
  · intro w
    exact congrArg (encodeWide w) hs
  · rw [UTF8String.getNumCharacters, hs]
  · rw [UTF8String.getNumBytes, he]

/-- C9 witness: the accessors of the object built from the byte A. -/
theorem C9_accessors_infallible_witness :
    ∃ S, decodeUTF8 (⟨[0x41], []⟩ : UTF8String).m_encoded = some S ∧
      (⟨[0x41], []⟩ : UTF8String).getUTF8 = encodeUTF8 S ∧
      (⟨[0x41], []⟩ : UTF8String).getUTF16 = encodeUTF16 S ∧
      (⟨[0x41], []⟩ : UTF8String).getUTF32 = encodeUTF32 S ∧
      (∀ w, ((⟨[0x41], []⟩ : UTF8String).getWCHAR w).1 = encodeWide w S) ∧
      (⟨[0x41], []⟩ : UTF8String).getNumCharacters = S.length ∧
      (⟨[0x41], []⟩ : UTF8String).getNumBytes = (encodeUTF8 S).length :=
  C9_accessors_infallible ⟨[0x41], []⟩ (Or.inl ⟨[0x41], by decide⟩)

/-- C10: `getWCHAR` writes only the wide-character cache buffer — its
resulting state differs from the old one at most in `m_wcharBuffer` —
and after any number of `getWCHAR` calls the canonical UTF-8 state and
therefore the results of `getUTF8`, `getNumBytes`, `getNumCharacters`,
`getUTF16` and `getUTF32` are unchanged. -/
theorem C10_getWCHAR_frame (x : UTF8String) (w : WideWidth) (n : Nat) :
    (x.getWCHAR w).2 = { x with m_wcharBuffer := (x.getWCHAR w).1 } ∧
      (applyWCHAR w n x).m_encoded = x.m_encoded ∧
      (applyWCHAR w n x).getUTF8 = x.getUTF8 ∧
      (applyWCHAR w n x).getNumBytes = x.getNumBytes ∧
      (applyWCHAR w n x).getNumCharacters = x.getNumCharacters ∧
      (applyWCHAR w n x).getUTF16 = x.getUTF16 ∧
      (applyWCHAR w n x).getUTF32 = x.getUTF32 := by
  have hm := applyWCHAR_m_encoded w n x
  refine ⟨rfl, hm, hm, congrArg List.length hm, ?_, ?_, ?_⟩
  · rw [UTF8String.getNumCharacters, UTF8String.getNumCharacters,
      UTF8String.scalars, UTF8String.scalars, hm]
  · rw [UTF8String.getUTF16, UTF8String.getUTF16, UTF8String.scalars,
      UTF8String.scalars, hm]
  · rw [UTF8String.getUTF32, UTF8String.getUTF32, UTF8String.scalars,
      UTF8String.scalars, hm]
